import Mathlib

/-!
Verification of the credential-acquisition and persistence pipeline of the
`assume-role` command-line tool (Rust sources: `src/main.rs`,
`src/credential_file.rs`, `src/settings.rs`).

The repository holds two co-existing variants: an older self-contained
`main.rs` (rusoto SDK) and a newer pair `settings.rs` + `credential_file.rs`
(aws-sdk). The INI library (`rust-ini`), the CLI flag library (structopt /
clap) and the standard-library integer/decimal formatting are external
collaborators; we model their narrow interfaces at the level the program
observes them: a credentials file is a sequence of structured lines
(section headers, key/value pairs, or malformed text), and an in-memory
`Ini` is an ordered list of sections, each an ordered list of key/value
pairs, exactly as the `ini` crate exposes it to this program.
-/

set_option autoImplicit false

namespace AssumeRole

/-- One section of an INI file as exposed by the `ini` crate: an optional
name (`none` is the crate's "general" section, i.e. keys appearing before
any `[header]`) and an ordered list of key/value properties. -/
structure IniSection where
  name : Option String
  props : List (String × String)
deriving DecidableEq, Repr

/-- The in-memory representation held by `CredentialFile` (the `Ini` value
of the `ini` crate): sections in file order. -/
abbrev Ini := List IniSection

/-- One physical line of a credentials file, after INI tokenization (the
spec places tokenization itself out of scope): a `[name]` section header, a
`key = value` pair, or a line the tokenizer rejects. -/
inductive Line where
  | sectionHeader (name : String)
  | kv (key value : String)
  | malformed (text : String)
deriving DecidableEq, Repr

/-- The INI parser loop (`Ini::load_from_file`): headers open a fresh
section, key/value lines attach to the most recently opened section (or to
the general section when none is open yet), and a malformed line makes the
whole load fail. The accumulator holds the sections already built, most
recent first. -/
def parseGo : List Line → List IniSection → Except String (List IniSection)
  | [], acc => .ok acc.reverse
  | Line.sectionHeader n :: rest, acc => parseGo rest (⟨some n, []⟩ :: acc)
  | Line.kv k v :: rest, acc =>
    match acc with
    | [] => parseGo rest [⟨none, [(k, v)]⟩]
    | s :: ss => parseGo rest (⟨s.name, s.props ++ [(k, v)]⟩ :: ss)
  | Line.malformed t :: _, _ => .error ("invalid line: " ++ t)

/-- Parse a whole credentials file into an `Ini`. -/
def parseLines (lines : List Line) : Except String Ini := parseGo lines []

/-- The lines the `ini` crate writes for one section: its `[name]` header
(nothing for the general section) followed by its `key = value` pairs in
order. -/
def sectionLines (s : IniSection) : List Line :=
  (match s.name with
   | none => []
   | some n => [Line.sectionHeader n]) ++ s.props.map (fun p => Line.kv p.1 p.2)

/-- The serialization written by `Ini::write_to_file` (used by
`CredentialFile::save`): each section in order. -/
def saveLines : Ini → List Line
  | [] => []
  | s :: rest => sectionLines s ++ saveLines rest

/-- The short-term credentials returned by the AssumeRole call
(`rusoto_sts::Credentials` / `aws_sdk_sts::types::Credentials`). -/
structure Credentials where
  access_key_id : String
  secret_access_key : String
  session_token : String
  expiration : String
deriving DecidableEq, Repr

/-- `Ini::delete(Some(profile))`: remove every section carrying that name
(the crate's ordered multimap drops the whole key), keeping the others in
order. -/
def iniDelete (ini : Ini) (name : Option String) : Ini :=
  ini.filter (fun s => !(s.name == name))

/-- A single property `insert` on a section's property list: replace the
first occurrence of the key in place, dropping any later duplicates, or
append the pair when the key is absent. -/
def propInsert : List (String × String) → String → String → List (String × String)
  | [], k, v => [(k, v)]
  | (k', v') :: rest, k, v =>
    if k' == k then (k, v) :: rest.filter (fun p => !(p.1 == k))
    else (k', v') :: propInsert rest k v

/-- One `.set(key, value)` step of the crate's `with_section` setter:
find the first section with the given name (creating an empty one at the
end when absent) and insert the property into it. -/
def withSectionSet : Ini → Option String → String → String → Ini
  | [], name, k, v => [⟨name, [(k, v)]⟩]
  | s :: rest, name, k, v =>
    if s.name == name then ⟨s.name, propInsert s.props k v⟩ :: rest
    else s :: withSectionSet rest name k v

/-- `CredentialFile::set_credentials` (identical in both variants): delete
the profile's section wholesale, then `with_section(Some(profile))` and set
the three credential keys in order. -/
def setCredentials (ini : Ini) (profile : String) (c : Credentials) : Ini :=
  withSectionSet
    (withSectionSet
      (withSectionSet (iniDelete ini (some profile))
        (some profile) "aws_access_key_id" c.access_key_id)
      (some profile) "aws_secret_access_key" c.secret_access_key)
    (some profile) "aws_session_token" c.session_token

/-- The property list `set_credentials` writes for the target profile. -/
def credProps (c : Credentials) : List (String × String) :=
  [("aws_access_key_id", c.access_key_id),
   ("aws_secret_access_key", c.secret_access_key),
   ("aws_session_token", c.session_token)]

/-- `CredentialFile::load` of `credential_file.rs` (the newer variant): a
missing file yields an empty representation; an existing file that fails to
parse yields an error whose context names the path. The filesystem state at
the path is `none` (no file) or `some lines`. -/
def credFileLoad (file : Option (List Line)) (path : String) : Except String Ini :=
  match file with
  | none => .ok []
  | some lines =>
    match parseLines lines with
    | .ok ini => .ok ini
    | .error _ => .error ("unable to load credential file " ++ path)

/-- Shape invariant of every `Ini` this program can hold: only the first
section may be the unnamed general section, and a general section is never
empty (the parser only creates it upon seeing a key/value line). -/
def WFIni (ini : Ini) : Prop :=
  (∀ s ∈ ini.tail, s.name ≠ none) ∧ (∀ s ∈ ini, s.name = none → s.props ≠ [])

/-! ## Round-trip of `saveLines` and `parseLines` -/

theorem parseGo_kvs (props : List (String × String)) (rest : List Line)
    (nm : Option String) (ps : List (String × String)) (acc : List IniSection) :
    parseGo (props.map (fun p => Line.kv p.1 p.2) ++ rest) (⟨nm, ps⟩ :: acc)
      = parseGo rest (⟨nm, ps ++ props⟩ :: acc) := by
  induction props generalizing ps with
  | nil => simp
  | cons p tl ih =>
    obtain ⟨k, v⟩ := p
    simp only [List.map_cons, List.cons_append, parseGo, List.append_eq]
    rw [ih (ps ++ [(k, v)])]
    simp

theorem parseGo_save_named (ini : Ini) (acc : List IniSection)
    (h : ∀ s ∈ ini, s.name ≠ none) :
    parseGo (saveLines ini) acc = .ok (acc.reverse ++ ini) := by
  induction ini generalizing acc with
  | nil => simp [saveLines, parseGo]
  | cons s rest ih =>
    obtain ⟨nm, ps⟩ := s
    have hs : nm ≠ none := h ⟨nm, ps⟩ (List.mem_cons_self _ _)
    obtain ⟨n, rfl⟩ : ∃ n, nm = some n := by
      cases nm with
      | none => exact absurd rfl hs
      | some n => exact ⟨n, rfl⟩
    simp only [saveLines, sectionLines, List.cons_append, List.append_assoc,
      List.nil_append, parseGo, List.append_eq]
    rw [parseGo_kvs ps (saveLines rest) (some n) [] acc]
    rw [ih (⟨some n, [] ++ ps⟩ :: acc) (fun t ht => h t (List.mem_cons_of_mem _ ht))]
    simp

theorem parse_save (ini : Ini) (h : WFIni ini) :
    parseLines (saveLines ini) = .ok ini := by
  obtain ⟨htail, hgen⟩ := h
  cases ini with
  | nil => simp [parseLines, saveLines, parseGo]
  | cons s rest =>
    obtain ⟨nm, ps⟩ := s
    have hrest : ∀ t ∈ rest, t.name ≠ none := by
      intro t ht
      exact htail t (by simpa using ht)
    cases nm with
    | some n =>
      have : ∀ t ∈ (⟨some n, ps⟩ : IniSection) :: rest, t.name ≠ none := by
        intro t ht
        rcases List.mem_cons.mp ht with rfl | ht
        · simp
        · exact hrest t ht
      rw [parseLines, parseGo_save_named _ [] this]
      simp
    | none =>
      have hps : ps ≠ [] := by
        have := hgen ⟨none, ps⟩ (List.mem_cons_self _ _)
        simpa using this
      cases ps with
      | nil => exact absurd rfl hps
      | cons p ptl =>
        obtain ⟨k, v⟩ := p
        rw [parseLines]
        simp only [saveLines, sectionLines, List.map_cons, List.nil_append,
          List.cons_append, parseGo, List.append_eq]
        rw [parseGo_kvs ptl (saveLines rest) none [(k, v)] []]
        rw [parseGo_save_named rest _ hrest]
        simp

/-! ## The well-formedness invariant is maintained by parsing and mutation -/

theorem wf_of_all_named (l : Ini) (h : ∀ s ∈ l, s.name ≠ none) : WFIni l := by
  refine ⟨fun s hs => h s ?_, fun s hs hn => absurd hn (h s hs)⟩
  cases l with
  | nil => simp at hs
  | cons a tl => exact List.mem_cons_of_mem a (by simpa using hs)

theorem wf_append_named (l : Ini) (s : IniSection) (hl : WFIni l)
    (hs : s.name ≠ none) : WFIni (l ++ [s]) := by
  obtain ⟨htail, hgen⟩ := hl
  constructor
  · intro t ht
    cases l with
    | nil => simp at ht
    | cons a tl =>
      simp only [List.cons_append, List.tail_cons] at ht
      rcases List.mem_append.mp ht with h1 | h1
      · exact htail t (by simpa using h1)
      · simp only [List.mem_singleton] at h1
        subst h1; exact hs
  · intro t ht hn
    rcases List.mem_append.mp ht with h1 | h1
    · exact hgen t h1 hn
    · simp only [List.mem_singleton] at h1
      subst h1; exact absurd hn hs

theorem wf_replace_last (l : Ini) (s t : IniSection) (hl : WFIni (l ++ [s]))
    (hname : t.name = s.name) (hne : t.name = none → t.props ≠ []) :
    WFIni (l ++ [t]) := by
  obtain ⟨htail, hgen⟩ := hl
  constructor
  · intro u hu
    cases l with
    | nil => simp at hu
    | cons a tl =>
      simp only [List.cons_append, List.tail_cons] at hu
      rcases List.mem_append.mp hu with h1 | h1
      · exact htail u (by simp [List.mem_append_left, h1])
      · simp only [List.mem_singleton] at h1
        subst h1
        rw [hname]
        refine htail s ?_
        simp
  · intro u hu hn
    rcases List.mem_append.mp hu with h1 | h1
    · exact hgen u (List.mem_append_left _ h1) hn
    · simp only [List.mem_singleton] at h1
      subst h1; exact hne hn

theorem parseGo_wf (lines : List Line) (acc : List IniSection) (out : Ini)
    (hacc : WFIni acc.reverse) (h : parseGo lines acc = .ok out) : WFIni out := by
  induction lines generalizing acc with
  | nil =>
    simp only [parseGo, Except.ok.injEq] at h
    subst h; exact hacc
  | cons line rest ih =>
    cases line with
    | sectionHeader n =>
      simp only [parseGo] at h
      refine ih (⟨some n, []⟩ :: acc) ?_ h
      rw [List.reverse_cons]
      exact wf_append_named _ _ hacc (by simp)
    | kv k v =>
      simp only [parseGo] at h
      cases acc with
      | nil =>
        refine ih [⟨none, [(k, v)]⟩] ?_ h
        exact ⟨by simp, by simp⟩
      | cons s ss =>
        refine ih (⟨s.name, s.props ++ [(k, v)]⟩ :: ss) ?_ h
        rw [List.reverse_cons]
        have hacc' : WFIni (ss.reverse ++ [s]) := by
          simpa [List.reverse_cons] using hacc
        exact wf_replace_last ss.reverse s ⟨s.name, s.props ++ [(k, v)]⟩ hacc' rfl
          (by simp)
    | malformed t => simp [parseGo] at h

theorem parseLines_wf (lines : List Line) (out : Ini)
    (h : parseLines lines = .ok out) : WFIni out :=
  parseGo_wf lines [] out ⟨by simp, by simp⟩ h

theorem credFileLoad_wf (file : Option (List Line)) (path : String) (ini : Ini)
    (h : credFileLoad file path = .ok ini) : WFIni ini := by
  cases file with
  | none =>
    simp only [credFileLoad, Except.ok.injEq] at h
    subst h; exact ⟨by simp, by simp⟩
  | some lines =>
    simp only [credFileLoad] at h
    cases hp : parseLines lines with
    | ok out =>
      rw [hp] at h
      simp only [Except.ok.injEq] at h
      subst h; exact parseLines_wf lines out hp
    | error e => rw [hp] at h; simp at h

theorem wf_filter (ini : Ini) (f : IniSection → Bool) (h : WFIni ini) :
    WFIni (ini.filter f) := by
  obtain ⟨htail, hgen⟩ := h
  cases ini with
  | nil => exact ⟨by simp, by simp⟩
  | cons s rest =>
    have hrest : ∀ t ∈ rest, t.name ≠ none := fun t ht => htail t (by simpa using ht)
    by_cases hf : f s
    · rw [List.filter_cons_of_pos hf]
      constructor
      · intro t ht
        simp only [List.tail_cons] at ht
        exact hrest t (List.mem_of_mem_filter ht)
      · intro t ht hn
        rcases List.mem_cons.mp ht with rfl | ht
        · exact hgen t (List.mem_cons_self _ _) hn
        · exact hgen t (List.mem_cons_of_mem _ (List.mem_of_mem_filter ht)) hn
    · rw [List.filter_cons_of_neg (by simpa using hf)]
      exact wf_of_all_named _ (fun t ht => hrest t (List.mem_of_mem_filter ht))

/-! ## A normal form for `set_credentials` -/

theorem withSectionSet_absent (ini : Ini) (nm : Option String) (k v : String)
    (h : ∀ s ∈ ini, s.name ≠ nm) :
    withSectionSet ini nm k v = ini ++ [⟨nm, [(k, v)]⟩] := by
  induction ini with
  | nil => rfl
  | cons s rest ih =>
    have hs : s.name ≠ nm := h s (List.mem_cons_self _ _)
    rw [withSectionSet, if_neg (by simpa using hs)]
    rw [ih (fun t ht => h t (List.mem_cons_of_mem _ ht))]
    simp

theorem withSectionSet_found_last (pre : Ini) (nm : Option String)
    (props : List (String × String)) (k v : String)
    (h : ∀ s ∈ pre, s.name ≠ nm) :
    withSectionSet (pre ++ [⟨nm, props⟩]) nm k v
      = pre ++ [⟨nm, propInsert props k v⟩] := by
  induction pre with
  | nil => simp [withSectionSet]
  | cons s rest ih =>
    have hs : s.name ≠ nm := h s (List.mem_cons_self _ _)
    rw [List.cons_append, withSectionSet, if_neg (by simpa using hs)]
    rw [ih (fun t ht => h t (List.mem_cons_of_mem _ ht))]
    simp

theorem iniDelete_names (ini : Ini) (nm : Option String) :
    ∀ s ∈ iniDelete ini nm, s.name ≠ nm := by
  intro s hs
  have := List.of_mem_filter hs
  simpa using this

theorem setCredentials_eq (ini : Ini) (p : String) (c : Credentials) :
    setCredentials ini p c = iniDelete ini (some p) ++ [⟨some p, credProps c⟩] := by
  unfold setCredentials
  rw [withSectionSet_absent (iniDelete ini (some p)) (some p) _ _
    (iniDelete_names ini (some p))]
  rw [withSectionSet_found_last (iniDelete ini (some p)) (some p) _ _ _
    (iniDelete_names ini (some p))]
  rw [withSectionSet_found_last (iniDelete ini (some p)) (some p) _ _ _
    (iniDelete_names ini (some p))]
  have h1 : propInsert [("aws_access_key_id", c.access_key_id)]
      "aws_secret_access_key" c.secret_access_key
      = [("aws_access_key_id", c.access_key_id),
         ("aws_secret_access_key", c.secret_access_key)] := by
    simp [propInsert]
  rw [h1]
  have h2 : propInsert
      [("aws_access_key_id", c.access_key_id),
       ("aws_secret_access_key", c.secret_access_key)]
      "aws_session_token" c.session_token = credProps c := by
    simp [propInsert, credProps]
  rw [h2]

theorem wf_setCredentials (ini : Ini) (p : String) (c : Credentials)
    (h : WFIni ini) : WFIni (setCredentials ini p c) := by
  rw [setCredentials_eq]
  exact wf_append_named _ _ (wf_filter ini _ h) (by simp)

theorem filter_not_filter (l : Ini) (g : IniSection → Bool) :
    (l.filter (fun s => !(g s))).filter g = [] := by
  induction l with
  | nil => rfl
  | cons s rest ih =>
    by_cases hg : g s
    · rw [List.filter_cons_of_neg (by simp [hg])]; exact ih
    · rw [List.filter_cons_of_pos (by simp [hg]),
        List.filter_cons_of_neg (by simpa using hg)]
      exact ih

theorem filter_not_idem (l : Ini) (g : IniSection → Bool) :
    (l.filter (fun s => !(g s))).filter (fun s => !(g s))
      = l.filter (fun s => !(g s)) := by
  induction l with
  | nil => rfl
  | cons s rest ih =>
    by_cases hg : g s
    · rw [List.filter_cons_of_neg (by simp [hg])]; exact ih
    · rw [List.filter_cons_of_pos (by simp [hg]),
        List.filter_cons_of_pos (by simp [hg]), ih]

/-- C1: loading a file, replacing profile `P` with credentials `c`, saving
and re-loading yields exactly the written representation; in it, the
sections named `P` are exactly one section holding the three credential
keys (any pre-existing keys of `P` are gone), and the sections not named
`P` are exactly those of the original representation, order and contents
untouched. -/
theorem set_credentials_roundtrip (F : Option (List Line)) (path P : String)
    (c : Credentials) (ini : Ini) (h : credFileLoad F path = .ok ini) :
    credFileLoad (some (saveLines (setCredentials ini P c))) path
        = .ok (setCredentials ini P c)
    ∧ (setCredentials ini P c).filter (fun s => s.name == some P)
        = [⟨some P, credProps c⟩]
    ∧ (setCredentials ini P c).filter (fun s => !(s.name == some P))
        = ini.filter (fun s => !(s.name == some P)) := by
  have hwf : WFIni ini := credFileLoad_wf F path ini h
  have hwf2 : WFIni (setCredentials ini P c) := wf_setCredentials ini P c hwf
  refine ⟨?_, ?_, ?_⟩
  · have hrt := parse_save _ hwf2
    simp [credFileLoad, hrt]
  · rw [setCredentials_eq, List.filter_append, iniDelete, filter_not_filter]
    simp
  · rw [setCredentials_eq, List.filter_append, iniDelete, filter_not_idem]
    simp

theorem set_credentials_roundtrip_witness :
    credFileLoad (some [Line.sectionHeader "other", Line.kv "a" "b"]) "f"
        = .ok [⟨some "other", [("a", "b")]⟩]
    ∧ (credFileLoad (some (saveLines (setCredentials
          [⟨some "other", [("a", "b")]⟩] "default" ⟨"AK", "SK", "TK", "EXP"⟩))) "f"
        = .ok (setCredentials [⟨some "other", [("a", "b")]⟩] "default"
            ⟨"AK", "SK", "TK", "EXP"⟩)
    ∧ (setCredentials [⟨some "other", [("a", "b")]⟩] "default"
          ⟨"AK", "SK", "TK", "EXP"⟩).filter (fun s => s.name == some "default")
        = [⟨some "default", credProps ⟨"AK", "SK", "TK", "EXP"⟩⟩]
    ∧ (setCredentials [⟨some "other", [("a", "b")]⟩] "default"
          ⟨"AK", "SK", "TK", "EXP"⟩).filter (fun s => !(s.name == some "default"))
        = [⟨some "other", [("a", "b")]⟩].filter
            (fun s => !(s.name == some "default"))) :=
  ⟨rfl, set_credentials_roundtrip
    (some [Line.sectionHeader "other", Line.kv "a" "b"]) "f" "default"
    ⟨"AK", "SK", "TK", "EXP"⟩ [⟨some "other", [("a", "b")]⟩] rfl⟩

/-- C2: `CredentialFile::load` (newer variant, `credential_file.rs`) yields
an empty representation when the file is missing, and when the file exists
but fails to parse it fails with a contextual error naming the path. -/
theorem load_missing_or_unparseable (p : String) (lines : List Line) (e : String)
    (h : parseLines lines = .error e) :
    credFileLoad none p = .ok []
    ∧ credFileLoad (some lines) p
        = .error ("unable to load credential file " ++ p) := by
  refine ⟨rfl, ?_⟩
  simp [credFileLoad, h]

theorem load_missing_or_unparseable_witness :
    parseLines [Line.malformed "x"] = .error "invalid line: x"
    ∧ (credFileLoad none "creds" = .ok []
    ∧ credFileLoad (some [Line.malformed "x"]) "creds"
        = .error ("unable to load credential file " ++ "creds")) :=
  ⟨rfl, load_missing_or_unparseable "creds" [Line.malformed "x"] "invalid line: x" rfl⟩

/-- C6: `set_credentials` is idempotent on the in-memory representation,
and re-saving an unchanged representation (i.e. saving again after loading
back what was just saved) writes the identical line sequence, so section
ordering is stable across writes. -/
theorem set_credentials_idempotent (ini : Ini) (p : String) (c : Credentials)
    (h : WFIni ini) :
    setCredentials (setCredentials ini p c) p c = setCredentials ini p c
    ∧ ∀ ini2, parseLines (saveLines (setCredentials ini p c)) = .ok ini2 →
        saveLines ini2 = saveLines (setCredentials ini p c) := by
  constructor
  · rw [setCredentials_eq ini, setCredentials_eq, iniDelete, iniDelete,
      List.filter_append, filter_not_idem]
    simp
  · intro ini2 h2
    rw [parse_save _ (wf_setCredentials ini p c h)] at h2
    cases h2
    rfl

theorem set_credentials_idempotent_witness :
    WFIni [⟨some "other", [("a", "b")]⟩]
    ∧ (setCredentials (setCredentials [⟨some "other", [("a", "b")]⟩] "work"
          ⟨"AK", "SK", "TK", "EXP"⟩) "work" ⟨"AK", "SK", "TK", "EXP"⟩
        = setCredentials [⟨some "other", [("a", "b")]⟩] "work"
            ⟨"AK", "SK", "TK", "EXP"⟩
    ∧ ∀ ini2, parseLines (saveLines (setCredentials
          [⟨some "other", [("a", "b")]⟩] "work" ⟨"AK", "SK", "TK", "EXP"⟩))
          = .ok ini2 →
        saveLines ini2 = saveLines (setCredentials
          [⟨some "other", [("a", "b")]⟩] "work" ⟨"AK", "SK", "TK", "EXP"⟩)) :=
  ⟨⟨by simp, by simp⟩,
    set_credentials_idempotent [⟨some "other", [("a", "b")]⟩] "work"
      ⟨"AK", "SK", "TK", "EXP"⟩ ⟨by simp, by simp⟩⟩

/-! ## Decimal rendering (Rust's `Display` for unsigned integers),
used by the synthesized session name `assume-role-<unix-seconds>`. -/

/-- Decimal digit characters of `n`, most significant first; the model of
Rust's `format!("{}", n)` for an unsigned integer. -/
def natDecimal (n : Nat) : List Char :=
  if _ : n < 10 then [Char.ofNat (48 + n)]
  else natDecimal (n / 10) ++ [Char.ofNat (48 + n % 10)]
decreasing_by exact Nat.div_lt_self (by omega) (by omega)

/-- Value of a decimal digit string, the left inverse of `natDecimal`. -/
def digitsVal (cs : List Char) : Nat :=
  cs.foldl (fun acc c => acc * 10 + (c.toNat - 48)) 0

theorem char_toNat_digit (d : Nat) (hd : d < 10) :
    (Char.ofNat (48 + d)).toNat = 48 + d := by
  interval_cases d <;> decide

theorem char_isDigit_digit (d : Nat) (hd : d < 10) :
    (Char.ofNat (48 + d)).isDigit = true := by
  interval_cases d <;> decide

theorem digitsVal_snoc (l : List Char) (c : Char) :
    digitsVal (l ++ [c]) = 10 * digitsVal l + (c.toNat - 48) := by
  simp [digitsVal, List.foldl_append, Nat.mul_comm]

theorem digitsVal_natDecimal (n : Nat) : digitsVal (natDecimal n) = n := by
  induction n using Nat.strong_induction_on with
  | _ n ih =>
    rw [natDecimal]
    split
    · next h =>
      simp [digitsVal, char_toNat_digit n h]
    · next h =>
      rw [digitsVal_snoc, ih (n / 10) (Nat.div_lt_self (by omega) (by omega)),
        char_toNat_digit (n % 10) (Nat.mod_lt n (by omega))]
      omega

theorem natDecimal_inj (n m : Nat) (h : natDecimal n = natDecimal m) : n = m := by
  have := congrArg digitsVal h
  rwa [digitsVal_natDecimal, digitsVal_natDecimal] at this

theorem natDecimal_ne_nil (n : Nat) : natDecimal n ≠ [] := by
  rw [natDecimal]
  split <;> simp

theorem natDecimal_digits (n : Nat) : ∀ c ∈ natDecimal n, c.isDigit = true := by
  induction n using Nat.strong_induction_on with
  | _ n ih =>
    rw [natDecimal]
    split
    · next h =>
      intro c hc
      simp only [List.mem_singleton] at hc
      subst hc
      exact char_isDigit_digit n h
    · next h =>
      intro c hc
      rcases List.mem_append.mp hc with h1 | h1
      · exact ih (n / 10) (Nat.div_lt_self (by omega) (by omega)) c h1
      · simp only [List.mem_singleton] at h1
        subst h1
        exact char_isDigit_digit (n % 10) (Nat.mod_lt n (by omega))

theorem natDecimal_zero : natDecimal 0 = ['0'] := by
  rw [natDecimal]
  norm_num

namespace Settings

/-- The parsed command line of the newer variant (`settings.rs::Cmdline`).
Flag parsing itself (structopt/clap) is an external collaborator; this is
the record it produces. -/
structure Cmdline where
  profile : Option String
  region : Option String
  duration : Option Int
  external_id : Option String
  policy_json : Option String
  policies : Option (List String)
  role_arn : String
  session_name : Option String
  mfa_serial_number : Option String
  mfa_token : Option String
  credential_file : Option String
  dest_profile : String
  proxy : Option String
  credential_process : Bool
  credential_process_cache : Option String
  verbose : Bool
deriving DecidableEq, Repr

/-- `Cmdline::session_name` (`settings.rs`): the explicit flag when given,
otherwise `assume-role-<unix-seconds>` computed at the moment of the call.
`clock` is the system clock in seconds relative to the Unix epoch (an `Int`
so that a clock before the epoch is representable); `duration_since` fails
on a pre-epoch clock and `unwrap_or_default` turns that failure into a zero
duration, which is exactly `Int.toNat`. -/
def Cmdline.sessionName (c : Cmdline) (clock : Int) : String :=
  match c.session_name with
  | some name => name
  | none => "assume-role-" ++ String.mk (natDecimal clock.toNat)

/-- `Cmdline::determine_credential_file` (`settings.rs`; the free function
in `main.rs` is identical): the explicit destination when given (the
`PathBuf` conversion is infallible), otherwise `<home>/.aws/credentials`
from home-directory discovery (`home` is `none` when the home directory
cannot be determined), which is the only failure case. -/
def determine_credential_file (credential_file : Option String)
    (home : Option String) : Except String String :=
  match credential_file with
  | some filename => .ok filename
  | none =>
    match home with
    | some h => .ok (h ++ "/.aws/credentials")
    | none => .error "unable to determine home directory"

end Settings

/-- The shape `^assume-role-\d+$` demanded of the synthesized default
session name: the literal prefix followed by a non-empty run of decimal
digits and nothing else. -/
def matchesSessionShape (s : String) : Prop :=
  ∃ ds : List Char, ds ≠ [] ∧ (∀ c ∈ ds, c.isDigit = true)
    ∧ s = "assume-role-" ++ String.mk ds

/-- C5: with the session-name flag unset, the accessor returns a string of
shape `assume-role-<digits>`, and because the timestamp is read at each
access, accesses at distinct (non-negative) unix seconds return distinct
names. -/
theorem session_name_default_shape (c : Settings.Cmdline)
    (h : c.session_name = none) (t1 t2 : Nat) (hne : t1 ≠ t2) :
    matchesSessionShape (c.sessionName (t1 : Int))
    ∧ c.sessionName (t1 : Int) ≠ c.sessionName (t2 : Int) := by
  constructor
  · refine ⟨natDecimal (Int.toNat (t1 : Int)), natDecimal_ne_nil _,
      natDecimal_digits _, ?_⟩
    simp [Settings.Cmdline.sessionName, h]
  · intro heq
    simp only [Settings.Cmdline.sessionName, h] at heq
    have hdata := congrArg String.data heq
    simp only [String.data_append] at hdata
    have hlist : natDecimal (Int.toNat (t1 : Int))
        = natDecimal (Int.toNat (t2 : Int)) :=
      List.append_cancel_left hdata
    have : Int.toNat (t1 : Int) = Int.toNat (t2 : Int) :=
      natDecimal_inj _ _ hlist
    simp only [Int.toNat_natCast] at this
    exact hne this

theorem session_name_default_shape_witness :
    (({ profile := none, region := none, duration := none,
        external_id := none, policy_json := none, policies := none,
        role_arn := "arn:aws:iam::111:role/R", session_name := none,
        mfa_serial_number := none, mfa_token := none,
        credential_file := none, dest_profile := "default", proxy := none,
        credential_process := false, credential_process_cache := none,
        verbose := false } : Settings.Cmdline).session_name = none)
    ∧ (1 : Nat) ≠ (2 : Nat)
    ∧ (matchesSessionShape (Settings.Cmdline.sessionName
          { profile := none, region := none, duration := none,
            external_id := none, policy_json := none, policies := none,
            role_arn := "arn:aws:iam::111:role/R", session_name := none,
            mfa_serial_number := none, mfa_token := none,
            credential_file := none, dest_profile := "default", proxy := none,
            credential_process := false, credential_process_cache := none,
            verbose := false } ((1 : Nat) : Int))
    ∧ Settings.Cmdline.sessionName
          { profile := none, region := none, duration := none,
            external_id := none, policy_json := none, policies := none,
            role_arn := "arn:aws:iam::111:role/R", session_name := none,
            mfa_serial_number := none, mfa_token := none,
            credential_file := none, dest_profile := "default", proxy := none,
            credential_process := false, credential_process_cache := none,
            verbose := false } ((1 : Nat) : Int)
        ≠ Settings.Cmdline.sessionName
          { profile := none, region := none, duration := none,
            external_id := none, policy_json := none, policies := none,
            role_arn := "arn:aws:iam::111:role/R", session_name := none,
            mfa_serial_number := none, mfa_token := none,
            credential_file := none, dest_profile := "default", proxy := none,
            credential_process := false, credential_process_cache := none,
            verbose := false } ((2 : Nat) : Int)) :=
  ⟨rfl, by decide, session_name_default_shape _ rfl 1 2 (by decide)⟩

/-- C10: the default session name is total in the clock: a clock earlier
than the Unix epoch is absorbed to zero seconds, yielding the string
`assume-role-0`, which still matches the documented default shape. -/
theorem session_name_pre_epoch (c : Settings.Cmdline)
    (h : c.session_name = none) (clock : Int) (hc : clock < 0) :
    c.sessionName clock = "assume-role-0"
    ∧ matchesSessionShape (c.sessionName clock) := by
  have htn : clock.toNat = 0 := Int.toNat_of_nonpos (le_of_lt hc)
  constructor
  · simp only [Settings.Cmdline.sessionName, h, htn, natDecimal_zero]
    rfl
  · refine ⟨natDecimal clock.toNat, natDecimal_ne_nil _, natDecimal_digits _, ?_⟩
    simp [Settings.Cmdline.sessionName, h]

theorem session_name_pre_epoch_witness :
    (({ profile := none, region := none, duration := none,
        external_id := none, policy_json := none, policies := none,
        role_arn := "arn:aws:iam::111:role/R", session_name := none,
        mfa_serial_number := none, mfa_token := none,
        credential_file := none, dest_profile := "default", proxy := none,
        credential_process := false, credential_process_cache := none,
        verbose := false } : Settings.Cmdline).session_name = none)
    ∧ (-5 : Int) < 0
    ∧ (Settings.Cmdline.sessionName
          { profile := none, region := none, duration := none,
            external_id := none, policy_json := none, policies := none,
            role_arn := "arn:aws:iam::111:role/R", session_name := none,
            mfa_serial_number := none, mfa_token := none,
            credential_file := none, dest_profile := "default", proxy := none,
            credential_process := false, credential_process_cache := none,
            verbose := false } (-5 : Int) = "assume-role-0"
    ∧ matchesSessionShape (Settings.Cmdline.sessionName
          { profile := none, region := none, duration := none,
            external_id := none, policy_json := none, policies := none,
            role_arn := "arn:aws:iam::111:role/R", session_name := none,
            mfa_serial_number := none, mfa_token := none,
            credential_file := none, dest_profile := "default", proxy := none,
            credential_process := false, credential_process_cache := none,
            verbose := false } (-5 : Int))) :=
  ⟨rfl, by decide, session_name_pre_epoch _ rfl (-5) (by decide)⟩

/-- C9: `determine_credential_file` returns the explicit destination when
one is configured, otherwise `<home>/.aws/credentials`, and it fails
exactly when no explicit destination is configured and the home directory
cannot be determined. -/
theorem determine_credential_file_spec :
    (∀ (f : String) (home : Option String),
      Settings.determine_credential_file (some f) home = .ok f)
    ∧ (∀ h : String,
      Settings.determine_credential_file none (some h)
        = .ok (h ++ "/.aws/credentials"))
    ∧ (∀ (flag home : Option String),
      (∃ e, Settings.determine_credential_file flag home = .error e)
        ↔ (flag = none ∧ home = none)) := by
  refine ⟨fun f home => rfl, fun h => rfl, fun flag home => ?_⟩
  constructor
  · rintro ⟨e, he⟩
    cases flag with
    | some f => simp [Settings.determine_credential_file] at he
    | none =>
      cases home with
      | some h => simp [Settings.determine_credential_file] at he
      | none => exact ⟨rfl, rfl⟩
  · rintro ⟨rfl, rfl⟩
    exact ⟨"unable to determine home directory", rfl⟩

namespace MainV

/-- The parsed command line of the older variant (`main.rs::Cmdline`).
`duration` is the flag's `Option<u16>` value; `region` has already been
resolved by the flag library (see `resolveRegion`). -/
structure Cmdline where
  profile : Option String
  credential_file : Option String
  region : String
  duration : Option Nat
  external_id : Option String
  policy_json : Option String
  policies : Option (List String)
  role_arn : String
  session_name : String
  mfa_serial_number : Option String
  mfa_token : Option String
  dest_credential_file : Option String
  dest_profile : String
deriving DecidableEq, Repr

/-- `rusoto_sts::PolicyDescriptorType`: a managed-policy descriptor. -/
structure PolicyDescriptorType where
  arn : Option String
deriving DecidableEq, Repr

/-- `rusoto_sts::AssumeRoleRequest`, every field the wire type carries;
fields not filled by this program come from `AssumeRoleRequest::default()`
and stay `none`. -/
structure AssumeRoleRequest where
  duration_seconds : Option Int
  external_id : Option String
  policy : Option String
  policy_arns : Option (List PolicyDescriptorType)
  role_arn : String
  role_session_name : String
  serial_number : Option String
  source_identity : Option String
  tags : Option (List (String × String))
  token_code : Option String
  transitive_tag_keys : Option (List String)
deriving DecidableEq, Repr

/-- `build_assume_role_request` (`main.rs`). -/
def build_assume_role_request (c : Cmdline) : AssumeRoleRequest :=
  { duration_seconds := c.duration.map (fun v => (v : Int)),
    external_id := c.external_id,
    policy := c.policy_json,
    policy_arns :=
      match c.policies with
      | some policies => some (policies.map (fun arn => ⟨some arn⟩))
      | none => none,
    role_arn := c.role_arn,
    role_session_name := c.session_name,
    serial_number := c.mfa_serial_number,
    source_identity := none,
    tags := none,
    token_code := c.mfa_token,
    transitive_tag_keys := none }

/-- `CredentialFile::load` as defined inside `main.rs` (older variant): no
missing-file check, so both a missing file and an unparseable one surface
the contextual error naming the path. -/
def mainLoad (file : Option (List Line)) (path : String) : Except String Ini :=
  match file with
  | none => .error ("unable to load credential file " ++ path)
  | some lines =>
    match parseLines lines with
    | .ok ini => .ok ini
    | .error _ => .error ("unable to load credential file " ++ path)

/-- The filesystem visible to the orchestrator: path to file content. -/
def fsLookup (fs : List (String × List Line)) (path : String) :
    Option (List Line) :=
  (fs.find? (fun e => e.1 == path)).map (fun e => e.2)

/-- A truncating write at a path (`write_to_file`). -/
def fsWrite (fs : List (String × List Line)) (path : String)
    (content : List Line) : List (String × List Line) :=
  if fs.any (fun e => e.1 == path) then
    fs.map (fun e => if e.1 == path then (path, content) else e)
  else fs ++ [(path, content)]

/-- The tail of `main` (`main.rs`) from the AssumeRole response onward:
check the response's optional credentials (failing with
`no credentials in response`), resolve the destination path, load, replace
the destination profile's section, and perform the single write. Client
construction and the network call are external collaborators; `creds` is
the `credentials` member of the response already received. The returned
filesystem reflects the write; on every error path it is returned
untouched. -/
def runMain (creds : Option Credentials) (destFlag home : Option String)
    (destProfile : String) (fs : List (String × List Line)) :
    Except String Unit × List (String × List Line) :=
  match creds with
  | none => (.error "no credentials in response", fs)
  | some c =>
    match Settings.determine_credential_file destFlag home with
    | .error e => (.error e, fs)
    | .ok path =>
      match mainLoad (fsLookup fs path) path with
      | .error e => (.error e, fs)
      | .ok ini => (.ok (), fsWrite fs path (saveLines (setCredentials ini destProfile c)))

end MainV

/-- C4: the built AssumeRole request always carries `role_arn` and
`role_session_name`; every optional field is present exactly when its
Settings counterpart is, carrying the same value (an absent optional stays
absent); `policy_arns` becomes `{arn}` descriptors in the supplied order. -/
theorem build_request_optionals (c : MainV.Cmdline) :
    (MainV.build_assume_role_request c).role_arn = c.role_arn
    ∧ (MainV.build_assume_role_request c).role_session_name = c.session_name
    ∧ (MainV.build_assume_role_request c).duration_seconds
        = c.duration.map (fun v => (v : Int))
    ∧ ((MainV.build_assume_role_request c).duration_seconds.isSome
        ↔ c.duration.isSome)
    ∧ (MainV.build_assume_role_request c).external_id = c.external_id
    ∧ (MainV.build_assume_role_request c).policy = c.policy_json
    ∧ (MainV.build_assume_role_request c).serial_number = c.mfa_serial_number
    ∧ (MainV.build_assume_role_request c).token_code = c.mfa_token
    ∧ (MainV.build_assume_role_request c).policy_arns
        = c.policies.map (fun ps => ps.map (fun arn => ⟨some arn⟩))
    ∧ ((MainV.build_assume_role_request c).policy_arns.isSome
        ↔ c.policies.isSome) := by
  cases hd : c.duration <;> cases hp : c.policies <;>
    simp [MainV.build_assume_role_request, hd, hp]

/-- C3: when the AssumeRole response omits its credentials member, the
orchestrator fails with exactly `no credentials in response`; moreover on
every error outcome the filesystem is returned unchanged (the single write
happens only on the success outcome). -/
theorem no_credentials_in_response (creds : Option Credentials)
    (destFlag home : Option String) (destProfile : String)
    (fs : List (String × List Line)) (h : creds = none) :
    MainV.runMain creds destFlag home destProfile fs
        = (.error "no credentials in response", fs)
    ∧ ∀ (creds2 : Option Credentials) (e : String),
        (MainV.runMain creds2 destFlag home destProfile fs).1 = .error e →
        (MainV.runMain creds2 destFlag home destProfile fs).2 = fs := by
  subst h
  refine ⟨rfl, fun creds2 e he => ?_⟩
  cases creds2 with
  | none => rfl
  | some c =>
    simp only [MainV.runMain] at he ⊢
    cases hd : Settings.determine_credential_file destFlag home with
    | error e2 => simp [hd]
    | ok path =>
      simp only [hd] at he ⊢
      cases hl : MainV.mainLoad (MainV.fsLookup fs path) path with
      | error e3 => simp [hl]
      | ok ini =>
        simp only [hl] at he
        exact absurd he (by simp)

theorem no_credentials_in_response_witness :
    (none : Option Credentials) = none
    ∧ (MainV.runMain none none (some "/home/u") "default" []
        = (.error "no credentials in response", [])
    ∧ ∀ (creds2 : Option Credentials) (e : String),
        (MainV.runMain creds2 none (some "/home/u") "default" []).1 = .error e →
        (MainV.runMain creds2 none (some "/home/u") "default" []).2 = []) :=
  ⟨rfl, no_credentials_in_response none none (some "/home/u") "default" [] rfl⟩

/-- Modelled from clap/structopt's documented flag resolution (the flag
library is an external collaborator): a flag declared with
`env = "AWS_DEFAULT_REGION"` and `default_value = "us-east-1"`
(`main.rs`, `region`) takes the command-line value first, then the
environment variable, then the default. -/
def resolveRegion (flag : Option String) (env : Option String) : String :=
  ((flag.orElse (fun _ => env)).getD "us-east-1")

/-- Modelled from clap/structopt's documented flag resolution: a flag
declared with `env = "AWS_SHARED_CREDENTIALS_FILE"` and no default
(`dest_credential_file` in `main.rs`, `credential_file` in `settings.rs`)
takes the command-line value first, then the environment variable, and
stays absent otherwise. -/
def resolveDestFile (flag : Option String) (env : Option String) :
    Option String :=
  flag.orElse (fun _ => env)

/-- C8: with the region flag absent the region comes from
`AWS_DEFAULT_REGION`, and failing that falls back to the fixed default
region `us-east-1`; with the destination-credentials-file flag absent the
destination comes from `AWS_SHARED_CREDENTIALS_FILE`. An explicit flag
always wins. -/
theorem region_dest_env_fallback :
    (∀ e : String, resolveRegion none (some e) = e)
    ∧ resolveRegion none none = "us-east-1"
    ∧ (∀ (f : String) (env : Option String), resolveRegion (some f) env = f)
    ∧ (∀ env : Option String, resolveDestFile none env = env)
    ∧ (∀ (f : String) (env : Option String),
        resolveDestFile (some f) env = some f) := by
  refine ⟨fun e => rfl, rfl, fun f env => rfl, fun env => ?_, fun f env => rfl⟩
  cases env <;> rfl

/-- The digits part of `str::parse::<u16>`: a non-empty run of decimal
digits whose value fits in a `u16`. -/
def parseDigitsU16 (cs : List Char) : Option Nat :=
  if cs.isEmpty then none
  else if cs.all Char.isDigit then
    if digitsVal cs ≤ 65535 then some (digitsVal cs) else none
  else none

/-- Modelled from Rust's `str::parse::<u16>` (used by the flag library for
the `Option<u16>` duration flag of `main.rs`): an optional leading `+`,
then a non-empty run of decimal digits whose value fits in a `u16`. -/
def parse_u16 (s : String) : Option Nat :=
  match s.data with
  | '+' :: cs => parseDigitsU16 cs
  | cs => parseDigitsU16 cs

/-- The claim as stated is false: the duration flag performs no range
validation, so `--duration 0` parses successfully to a value outside
`[900, 43200]` (and not positive). -/
theorem duration_range_not_enforced_cex :
    ¬ (∀ (s : String) (n : Nat), parse_u16 s = some n →
        900 ≤ n ∧ n ≤ 43200) :=
  fun h => absurd (h "0" 0 (by decide)).1 (by decide)

theorem parseDigitsU16_le (cs : List Char) (n : Nat)
    (h : parseDigitsU16 cs = some n) : n ≤ 65535 := by
  unfold parseDigitsU16 at h
  split at h
  · exact absurd h (by simp)
  · split at h
    · split at h
      · next hle => cases h; exact hle
      · exact absurd h (by simp)
    · exact absurd h (by simp)

/-- C7 amended: the tool enforces no range on the duration flag; a
successfully parsed duration is only constrained by the flag's integer
type, `u16` in `main.rs` (so any value in `[0, 65535]`, including `0` and
values outside `[900, 43200]`, is accepted; the `[900, 43200]` interval is
left to the server to enforce). -/
theorem duration_u16_range (s : String) (n : Nat)
    (h : parse_u16 s = some n) : n ≤ 65535 := by
  unfold parse_u16 at h
  split at h
  · exact parseDigitsU16_le _ n h
  · exact parseDigitsU16_le _ n h

theorem duration_u16_range_witness :
    parse_u16 "1000" = some 1000 ∧ 1000 ≤ 65535 :=
  ⟨by decide, duration_u16_range "1000" 1000 (by decide)⟩

end AssumeRole
